import Mathlib

/-
Verification of the layer-merging core of the Junior-IS repository
(src/mar141.py and src/mar143.py) against its natural-language design
specification.  The Python functions are shallowly embedded: pure
fragments become Lean functions, Python list indexing and the built-in
exceptions it can raise become `Except PyErr`, the in-place `+=`
normalization loop becomes an explicit heap transformer, and external
library primitives (PIL, the frame store consumed by FFmpeg) are
modelled by their interface behavior, which is recorded in each
definition's doc comment.
-/

set_option autoImplicit false

namespace JuniorIS

/-- Built-in Python exceptions that the embedded code can raise:
`ValueError` (from `max()` on an empty sequence) and `IndexError`
(from out-of-range list subscripts such as `layer[i]` or `layer[-1]`
on an empty list). -/
inductive PyErr where
  | valueError
  | indexError
  deriving DecidableEq, Repr

/-- Python list subscript `l[i]` for a non-negative index: the element
when `i < len(l)`, otherwise `IndexError`. -/
def pyGetL {α : Type} (l : List α) (i : Nat) : Except PyErr α :=
  if h : i < l.length then .ok (l.get ⟨i, h⟩) else .error .indexError

/-- Sequencing of a fallible operation over a Python `for` loop: runs
`f` on each element in order and stops at the first raised exception,
exactly as the corresponding Python loops do. -/
def exceptMapM {α β : Type} (f : α → Except PyErr β) : List α → Except PyErr (List β)
  | [] => .ok []
  | x :: xs => do
    let y ← f x
    let ys ← exceptMapM f xs
    pure (y :: ys)

/-- Value of Python `max(len(layer) for layer in layers)` on a
non-empty `layers`: the greatest layer length (a left fold of `max`
over the lengths, starting from 0, which equals the maximum once the
list is non-empty since lengths are non-negative). -/
def maxLenTotal (layers : List (List String)) : Nat :=
  (layers.map List.length).foldl max 0

/-- Embedding of `num_frames = max(len(layer) for layer in layers)`
(mar141.py line 40 and the identical line in both `start_merge`
methods): Python `max` raises `ValueError` on an empty sequence. -/
def pyMaxLen (layers : List (List String)) : Except PyErr Nat :=
  match layers with
  | [] => .error .valueError
  | l0 :: rest => .ok (maxLenTotal (l0 :: rest))

/-- Embedding of the padding of one layer (mar141.py lines 42-44):
`if len(layers[i]) < num_frames: layers[i] += [layers[i][-1]] * (num_frames - len(layers[i]))`.
The subscript `layers[i][-1]` raises `IndexError` on an empty layer. -/
def padLayer (nf : Nat) (layer : List String) : Except PyErr (List String) :=
  if layer.length < nf then
    match layer.getLast? with
    | none => .error .indexError
    | some lastPath => .ok (layer ++ List.replicate (nf - layer.length) lastPath)
  else
    .ok layer

/-- Total version of the padding of one layer, used to describe the
value `padLayer` produces on a non-empty layer. -/
def padTotal (nf : Nat) (layer : List String) : List String :=
  if layer.length < nf then
    layer ++ List.replicate (nf - layer.length) (layer.getLast?.getD "")
  else
    layer

/-- Embedding of the whole normalization step shared by
`merge_layers` (mar141.py lines 39-44) and both `start_merge` methods
(mar143.py lines 301-306): compute the maximum layer length, then pad
every shorter layer by repeating its last path. -/
def normalizeLayers (layers : List (List String)) : Except PyErr (List (List String)) := do
  let nf ← pyMaxLen layers
  exceptMapM (padLayer nf) layers

section NormalizationLemmas

/-- The left fold of `max` dominates its start and every element. -/
theorem foldl_max_bounds (l : List Nat) : ∀ a : Nat,
    a ≤ l.foldl max a ∧ ∀ x ∈ l, x ≤ l.foldl max a := by
  induction l with
  | nil => intro a; exact ⟨Nat.le_refl a, by intro x hx; cases hx⟩
  | cons y ys ih =>
    intro a
    have h := ih (max a y)
    refine ⟨Nat.le_trans (Nat.le_max_left a y) h.1, ?_⟩
    intro x hx
    rcases List.mem_cons.mp hx with rfl | hx
    · exact Nat.le_trans (Nat.le_max_right a x) h.1
    · exact h.2 x hx

/-- The left fold of `max` is either the starting value or an element. -/
theorem foldl_max_eq_start_or_mem (l : List Nat) : ∀ a : Nat,
    l.foldl max a = a ∨ l.foldl max a ∈ l := by
  induction l with
  | nil => intro a; exact Or.inl rfl
  | cons y ys ih =>
    intro a
    rcases ih (max a y) with h | h
    · rw [List.foldl_cons, h]
      rcases max_choice a y with h2 | h2
      · rw [h2]; exact Or.inl rfl
      · rw [h2]; exact Or.inr (List.mem_cons_self y ys)
    · exact Or.inr (List.mem_cons_of_mem y h)

/-- Every position below the length of a `replicate` holds the
repeated element. -/
theorem get?_replicate_of_lt {α : Type} (a : α) : ∀ n k : Nat, k < n →
    (List.replicate n a).get? k = some a := by
  intro n
  induction n with
  | zero => intro k hk; exact absurd hk (Nat.not_lt_zero k)
  | succ m ih =>
    intro k hk
    cases k with
    | zero => rfl
    | succ j => exact ih j (Nat.lt_of_succ_lt_succ hk)

/-- A non-empty list has `getLast? = some` of its default-irrelevant
last element. -/
theorem getLast?_eq_some_of_ne_nil (l : List String) (h : l ≠ []) :
    l.getLast? = some (l.getLast?.getD "") := by
  cases hl : l.getLast? with
  | none => exact absurd (List.getLast?_eq_none_iff.mp hl) h
  | some x => rfl

/-- On a non-empty layer, `padLayer` cannot raise and returns the
`padTotal` value. -/
theorem padLayer_ok (nf : Nat) (l : List String) (h : l ≠ []) :
    padLayer nf l = .ok (padTotal nf l) := by
  cases hl : l.getLast? with
  | none => exact absurd (List.getLast?_eq_none_iff.mp hl) h
  | some x =>
    unfold padLayer padTotal
    rw [hl]
    by_cases hlt : l.length < nf
    · simp [if_pos hlt]
    · simp [if_neg hlt]

/-- If `f` returns `ok` via `g` on every element, the loop returns the
mapped list. -/
theorem exceptMapM_ok {α β : Type} (f : α → Except PyErr β) (g : α → β) :
    ∀ l : List α, (∀ x ∈ l, f x = .ok (g x)) → exceptMapM f l = .ok (l.map g) := by
  intro l
  induction l with
  | nil => intro _; rfl
  | cons x xs ih =>
    intro h
    have hx := h x (List.mem_cons_self x xs)
    have hxs := ih (fun y hy => h y (List.mem_cons_of_mem x hy))
    simp only [exceptMapM, hx, hxs]
    rfl

end NormalizationLemmas

/-- Embedding of the start of `merge_layers` in mar141.py (lines
39-48): the normalization loop followed by
`first_image = Image.open(layers[0][0])`, i.e. the two subscripts that
are evaluated before any frame processing.  Returns the padded layers
and the path handed to the first `Image.open`. -/
def mergeLayers141Start (layers : List (List String)) :
    Except PyErr (List (List String) × String) := do
  let padded ← normalizeLayers layers
  let firstLayerList ← pyGetL padded 0
  let firstImagePath ← pyGetL firstLayerList 0
  pure (padded, firstImagePath)

/-- Embedding of the frame-data preparation of `merge_layers` in
mar143.py (lines 62-68): `num_frames = len(image_paths[0])`, then for
each `i in range(num_frames)` collect `[layer[i] for layer in
image_paths]`.  Every subscript is the checked Python one. -/
def frameData143 (imagePaths : List (List String)) :
    Except PyErr (List (Nat × List String)) := do
  let firstLayer ← pyGetL imagePaths 0
  exceptMapM
    (fun i => do
      let layerPaths ← exceptMapM (fun layer => pyGetL layer i) imagePaths
      pure (i, layerPaths))
    (List.range firstLayer.length)

/-- Heap view of the normalization loop (mar141.py lines 41-44,
mar143.py lines 303-306).  In Python, `layers[i] += [...]` is an
in-place `list.extend` on the list object the caller also holds, so
the heap cell of each layer list is overwritten with its padded value.
The heap is modelled as the list of layer-list objects, indexed by
reference; the function returns the heap after the loop.  (An empty
layer would raise `IndexError` in Python; the total `padTotal` is only
a faithful picture of the heap on non-empty layers.) -/
def normalizeInPlace (heap : List (List String)) : List (List String) :=
  heap.map (padTotal (maxLenTotal heap))

section LoopErrorLemmas

/-- If some element of the loop raises `e` and every element either
succeeds or raises `e`, the loop raises `e`. -/
theorem exceptMapM_error {α β : Type} (f : α → Except PyErr β) (g : α → β) (e : PyErr) :
    ∀ l : List α, (∀ x ∈ l, f x = .ok (g x) ∨ f x = .error e) →
      (∃ x ∈ l, f x = .error e) → exceptMapM f l = .error e := by
  intro l
  induction l with
  | nil => intro _ hex; rcases hex with ⟨x, hx, _⟩; cases hx
  | cons x xs ih =>
    intro hall hex
    rcases hall x (List.mem_cons_self x xs) with hx | hx
    · have hwit : ∃ y ∈ xs, f y = .error e := by
        rcases hex with ⟨y, hy, hye⟩
        rcases List.mem_cons.mp hy with rfl | hy2
        · rw [hx] at hye; cases hye
        · exact ⟨y, hy2, hye⟩
      have := ih (fun y hy => hall y (List.mem_cons_of_mem x hy)) hwit
      simp only [exceptMapM, hx, this]
      rfl
    · simp only [exceptMapM, hx]
      rfl

/-- A loop whose elements each either succeed or raise `e` returns
either the mapped list or `e`. -/
theorem exceptMapM_cases {α β : Type} (f : α → Except PyErr β) (g : α → β) (e : PyErr) :
    ∀ l : List α, (∀ x ∈ l, f x = .ok (g x) ∨ f x = .error e) →
      exceptMapM f l = .ok (l.map g) ∨ exceptMapM f l = .error e := by
  intro l
  induction l with
  | nil => intro _; exact Or.inl rfl
  | cons x xs ih =>
    intro hall
    rcases hall x (List.mem_cons_self x xs) with hx | hx
    · rcases ih (fun y hy => hall y (List.mem_cons_of_mem x hy)) with hxs | hxs
      · left; simp only [exceptMapM, hx, hxs]; rfl
      · right; simp only [exceptMapM, hx, hxs]; rfl
    · right; simp only [exceptMapM, hx]; rfl

/-- The checked subscript succeeds below the length, returning the
default-irrelevant `getD` value. -/
theorem pyGetL_ok (l : List String) (k : Nat) (h : k < l.length) :
    pyGetL l k = .ok (l.getD k "") := by
  unfold pyGetL
  rw [dif_pos h, List.getD_eq_get?, List.get?_eq_get h]
  rfl

/-- The checked subscript raises `IndexError` at or above the length. -/
theorem pyGetL_err (l : List String) (k : Nat) (h : ¬ k < l.length) :
    pyGetL l k = .error .indexError := by
  unfold pyGetL
  rw [dif_neg h]

/-- Subscripting a cons cell at index 0 succeeds with the head. -/
theorem pyGetL_cons_zero {α : Type} (x : α) (xs : List α) : pyGetL (x :: xs) 0 = .ok x := by
  simp [pyGetL]

/-- Reduction of the embedded `do` sequencing on a success value. -/
theorem bind_ok_eq {α β : Type} (a : α) (f : α → Except PyErr β) :
    (do let x ← (Except.ok a : Except PyErr α); f x) = f a := rfl

/-- Positions below the length are `some` of the `getD` value. -/
theorem get?_eq_some_getD (l : List String) (k : Nat) (h : k < l.length) :
    l.get? k = some (l.getD k "") := by
  rw [List.getD_eq_get?, List.get?_eq_get h]
  rfl

end LoopErrorLemmas

/-- C1: for a non-empty list of non-empty layers, the normalization
step of `merge_layers` / `start_merge` extends each layer shorter than
the maximum layer length by repeating its last path, leaves entries at
positions below the original length unchanged, leaves layers already
at the maximum length unchanged, and afterwards every layer has length
equal to the maximum input layer length. -/
theorem normalization_freezes_last_frame (layers : List (List String))
    (hne : layers ≠ []) (hall : ∀ l ∈ layers, l ≠ []) :
    ∃ nf padded,
      pyMaxLen layers = Except.ok nf ∧
      normalizeLayers layers = Except.ok padded ∧
      (∀ l ∈ layers, l.length ≤ nf) ∧
      (∃ l ∈ layers, l.length = nf) ∧
      padded.length = layers.length ∧
      (∀ i orig, layers.get? i = some orig →
        ∃ pad, padded.get? i = some pad ∧
          pad.length = nf ∧
          (∀ j, j < orig.length → pad.get? j = orig.get? j) ∧
          (∀ j, orig.length ≤ j → j < nf → pad.get? j = orig.getLast?) ∧
          (orig.length = nf → pad = orig)) := by
  cases layers with
  | nil => exact absurd rfl hne
  | cons l0 rest =>
  have hle : ∀ l ∈ l0 :: rest, l.length ≤ maxLenTotal (l0 :: rest) := by
    intro l hl
    exact (foldl_max_bounds ((l0 :: rest).map List.length) 0).2 l.length
      (List.mem_map_of_mem List.length hl)
  have hattain : ∃ l ∈ l0 :: rest, l.length = maxLenTotal (l0 :: rest) := by
    rcases foldl_max_eq_start_or_mem ((l0 :: rest).map List.length) 0 with h | h
    · exfalso
      have h0 : l0.length ≤ maxLenTotal (l0 :: rest) := hle l0 (List.mem_cons_self l0 rest)
      have hnf0 : maxLenTotal (l0 :: rest) = 0 := h
      have hl0 : l0.length = 0 := Nat.le_zero.mp (hnf0 ▸ h0)
      exact hall l0 (List.mem_cons_self l0 rest) (List.length_eq_zero.mp hl0)
    · rcases List.mem_map.mp h with ⟨l, hl, hlen⟩
      exact ⟨l, hl, hlen⟩
  have hmax : pyMaxLen (l0 :: rest) = Except.ok (maxLenTotal (l0 :: rest)) := rfl
  have hnorm : normalizeLayers (l0 :: rest) =
      Except.ok ((l0 :: rest).map (padTotal (maxLenTotal (l0 :: rest)))) := by
    unfold normalizeLayers
    rw [hmax]
    exact exceptMapM_ok (padLayer (maxLenTotal (l0 :: rest)))
      (padTotal (maxLenTotal (l0 :: rest))) (l0 :: rest)
      (fun l hl => padLayer_ok (maxLenTotal (l0 :: rest)) l (hall l hl))
  refine ⟨maxLenTotal (l0 :: rest), (l0 :: rest).map (padTotal (maxLenTotal (l0 :: rest))),
    hmax, hnorm, hle, hattain, by simp, ?_⟩
  intro i orig horig
  have hi : ((l0 :: rest).map (padTotal (maxLenTotal (l0 :: rest)))).get? i =
      some (padTotal (maxLenTotal (l0 :: rest)) orig) := by
    rw [List.get?_map, horig]
    rfl
  have hne2 : orig ≠ [] := hall orig (List.get?_mem horig)
  have hlen : orig.length ≤ maxLenTotal (l0 :: rest) := hle orig (List.get?_mem horig)
  refine ⟨padTotal (maxLenTotal (l0 :: rest)) orig, hi, ?_, ?_, ?_, ?_⟩
  · unfold padTotal
    by_cases hlt : orig.length < maxLenTotal (l0 :: rest)
    · simp only [if_pos hlt, List.length_append, List.length_replicate]
      omega
    · simp only [if_neg hlt]
      omega
  · intro j hj
    unfold padTotal
    by_cases hlt : orig.length < maxLenTotal (l0 :: rest)
    · simp only [if_pos hlt]
      exact List.get?_append hj
    · simp only [if_neg hlt]
  · intro j hj1 hj2
    have hlt : orig.length < maxLenTotal (l0 :: rest) := Nat.lt_of_le_of_lt hj1 hj2
    unfold padTotal
    simp only [if_pos hlt]
    rw [List.get?_append_right hj1, getLast?_eq_some_of_ne_nil orig hne2]
    exact get?_replicate_of_lt _ _ _ (by omega)
  · intro heq
    unfold padTotal
    have hnlt : ¬ orig.length < maxLenTotal (l0 :: rest) := by omega
    simp only [if_neg hnlt]

/-- Witness for C1 at the spec's own example of layer lengths
`[3, 5, 1]`. -/
theorem normalization_freezes_last_frame_witness :
    ([["a", "b", "c"], ["d", "e", "f", "g", "h"], ["z"]] : List (List String)) ≠ [] ∧
    (∀ l ∈ ([["a", "b", "c"], ["d", "e", "f", "g", "h"], ["z"]] : List (List String)), l ≠ []) ∧
    (∃ nf padded,
      pyMaxLen [["a", "b", "c"], ["d", "e", "f", "g", "h"], ["z"]] = Except.ok nf ∧
      normalizeLayers [["a", "b", "c"], ["d", "e", "f", "g", "h"], ["z"]] = Except.ok padded ∧
      (∀ l ∈ ([["a", "b", "c"], ["d", "e", "f", "g", "h"], ["z"]] : List (List String)), l.length ≤ nf) ∧
      (∃ l ∈ ([["a", "b", "c"], ["d", "e", "f", "g", "h"], ["z"]] : List (List String)), l.length = nf) ∧
      padded.length = 3 ∧
      (∀ i orig, ([["a", "b", "c"], ["d", "e", "f", "g", "h"], ["z"]] : List (List String)).get? i = some orig →
        ∃ pad, padded.get? i = some pad ∧
          pad.length = nf ∧
          (∀ j, j < orig.length → pad.get? j = orig.get? j) ∧
          (∀ j, orig.length ≤ j → j < nf → pad.get? j = orig.getLast?) ∧
          (orig.length = nf → pad = orig))) :=
  ⟨by decide, by decide,
    normalization_freezes_last_frame [["a", "b", "c"], ["d", "e", "f", "g", "h"], ["z"]]
      (by decide) (by decide)⟩

/-- C4 (counterexample): mar143's `merge_layers`, handed a layer set
whose first layer is the empty list, raises no error at all before
frame processing: it computes `num_frames = 0` and prepares an empty
job list, so the claimed `ValidationError` (a class that exists
nowhere in the code) is never reported. -/
theorem validation_error_counterexample :
    frameData143 [[], ["b"]] = Except.ok [] ∧
    ([] : List String) ∈ ([[], ["b"]] : List (List String)) :=
  ⟨rfl, by decide⟩

/-- C4 (amended): neither implementation raises a `ValidationError`.
mar141's `merge_layers` raises the built-in `ValueError` (from `max`)
when the layer list is empty and `IndexError` when some layer is
empty, both before frame processing; mar143's `merge_layers` raises
`IndexError` when the layer list is empty, but an empty first layer
yields zero frames with no error at all. -/
theorem empty_input_error_behavior :
    mergeLayers141Start [] = Except.error PyErr.valueError ∧
    (∀ layers : List (List String), [] ∈ layers →
      mergeLayers141Start layers = Except.error PyErr.indexError) ∧
    frameData143 [] = Except.error PyErr.indexError ∧
    (∀ rest : List (List String), frameData143 ([] :: rest) = Except.ok []) := by
  refine ⟨rfl, ?_, rfl, fun rest => by
    unfold frameData143
    simp only [pyGetL_cons_zero, bind_ok_eq]
    rfl⟩
  intro layers hmem
  cases layers with
  | nil => cases hmem
  | cons l0 rest =>
  by_cases h0 : maxLenTotal (l0 :: rest) = 0
  · have hok : ∀ l ∈ l0 :: rest, padLayer (maxLenTotal (l0 :: rest)) l = .ok (id l) := by
      intro l hl
      unfold padLayer
      rw [h0]
      exact if_neg (Nat.not_lt_zero l.length)
    have hmapm := exceptMapM_ok (padLayer (maxLenTotal (l0 :: rest))) id (l0 :: rest) hok
    have hl0 : l0 = [] := by
      have hle := (foldl_max_bounds ((l0 :: rest).map List.length) 0).2 l0.length
        (List.mem_map_of_mem List.length (List.mem_cons_self l0 rest))
      exact List.length_eq_zero.mp (Nat.le_zero.mp (h0 ▸ hle))
    have hnorm : normalizeLayers (l0 :: rest) = Except.ok (l0 :: rest) := by
      unfold normalizeLayers
      rw [show pyMaxLen (l0 :: rest) = Except.ok (maxLenTotal (l0 :: rest)) from rfl]
      show exceptMapM (padLayer (maxLenTotal (l0 :: rest))) (l0 :: rest) =
        Except.ok (l0 :: rest)
      rw [hmapm, List.map_id]
    subst hl0
    unfold mergeLayers141Start
    rw [hnorm]
    simp only [bind_ok_eq, pyGetL_cons_zero]
    rfl
  · have hpos : 0 < maxLenTotal (l0 :: rest) := Nat.pos_of_ne_zero h0
    have hcases : ∀ l ∈ l0 :: rest,
        padLayer (maxLenTotal (l0 :: rest)) l =
          .ok (padTotal (maxLenTotal (l0 :: rest)) l) ∨
        padLayer (maxLenTotal (l0 :: rest)) l = .error .indexError := by
      intro l hl
      by_cases hln : l = []
      · right
        subst hln
        unfold padLayer
        have hpos2 : ([] : List String).length < maxLenTotal (l0 :: rest) := hpos
        rw [if_pos hpos2]
        rfl
      · exact Or.inl (padLayer_ok _ l hln)
    have hwit : ∃ l ∈ l0 :: rest,
        padLayer (maxLenTotal (l0 :: rest)) l = .error .indexError := by
      refine ⟨[], hmem, ?_⟩
      unfold padLayer
      have hpos2 : ([] : List String).length < maxLenTotal (l0 :: rest) := hpos
      rw [if_pos hpos2]
      rfl
    have hnorm : normalizeLayers (l0 :: rest) = Except.error .indexError := by
      unfold normalizeLayers
      rw [show pyMaxLen (l0 :: rest) = Except.ok (maxLenTotal (l0 :: rest)) from rfl]
      exact exceptMapM_error (padLayer (maxLenTotal (l0 :: rest)))
        (padTotal (maxLenTotal (l0 :: rest))) .indexError (l0 :: rest) hcases hwit
    unfold mergeLayers141Start
    rw [hnorm]
    rfl

/-- Witness for the amended C4 at concrete inputs. -/
theorem empty_input_error_behavior_witness :
    (([] : List String) ∈ ([[]] : List (List String))) ∧
    mergeLayers141Start [[]] = Except.error PyErr.indexError ∧
    frameData143 ([] :: ([] : List (List String))) = Except.ok [] :=
  ⟨by decide, empty_input_error_behavior.2.1 [[]] (by decide),
    empty_input_error_behavior.2.2.2 []⟩

/-- C8 (counterexample): the normalization step does mutate the
caller's layer lists.  On the heap `[["a"], ["b", "c"]]` the list
object holding `["a"]` is extended in place to `["a", "a"]`, so the
caller's path-lists are not unchanged. -/
theorem normalization_mutation_counterexample :
    normalizeInPlace [["a"], ["b", "c"]] = [["a", "a"], ["b", "c"]] ∧
    normalizeInPlace [["a"], ["b", "c"]] ≠ [["a"], ["b", "c"]] := by
  exact ⟨rfl, by decide⟩

/-- C8 (amended): normalization mutates the input layer lists in place
(`layers[i] += [...]` is an in-place extend): after the loop each of
the caller's layer-list objects holds the padded value, entries below
the original length are unchanged, and every layer strictly shorter
than the maximum has visibly changed. -/
theorem normalization_mutates_in_place (layers : List (List String))
    (hall : ∀ l ∈ layers, l ≠ []) :
    (normalizeInPlace layers).length = layers.length ∧
    (∀ i orig, layers.get? i = some orig →
      ∃ mutated, (normalizeInPlace layers).get? i = some mutated ∧
        mutated = padTotal (maxLenTotal layers) orig ∧
        (∀ j, j < orig.length → mutated.get? j = orig.get? j) ∧
        (orig.length < maxLenTotal layers → mutated ≠ orig)) := by
  refine ⟨by simp [normalizeInPlace], ?_⟩
  intro i orig horig
  refine ⟨padTotal (maxLenTotal layers) orig, ?_, rfl, ?_, ?_⟩
  · unfold normalizeInPlace
    rw [List.get?_map, horig]
    rfl
  · intro j hj
    unfold padTotal
    by_cases hlt : orig.length < maxLenTotal layers
    · simp only [if_pos hlt]
      exact List.get?_append hj
    · simp only [if_neg hlt]
  · intro hlt
    have hlen : (padTotal (maxLenTotal layers) orig).length = maxLenTotal layers := by
      unfold padTotal
      simp only [if_pos hlt, List.length_append, List.length_replicate]
      omega
    intro heq
    rw [heq] at hlen
    omega

/-- Witness for the amended C8 at the counterexample heap. -/
theorem normalization_mutates_in_place_witness :
    (∀ l ∈ ([["a"], ["b", "c"]] : List (List String)), l ≠ []) ∧
    ((normalizeInPlace [["a"], ["b", "c"]]).length = 2 ∧
      (∀ i orig, ([["a"], ["b", "c"]] : List (List String)).get? i = some orig →
        ∃ mutated, (normalizeInPlace [["a"], ["b", "c"]]).get? i = some mutated ∧
          mutated = padTotal (maxLenTotal [["a"], ["b", "c"]]) orig ∧
          (∀ j, j < orig.length → mutated.get? j = orig.get? j) ∧
          (orig.length < maxLenTotal [["a"], ["b", "c"]] → mutated ≠ orig))) :=
  ⟨by decide, normalization_mutates_in_place [["a"], ["b", "c"]] (by decide)⟩

/-- C9: mar143's `merge_layers` takes the frame count from layer 0
alone and performs no padding.  When every other layer is at least as
long as layer 0, it succeeds and each prepared job reads only the
entries at its own frame index, which is below layer 0's length, so
entries at or beyond layer 0's length are never consumed; when some
layer is shorter than layer 0 it raises `IndexError` instead of
freeze-last-frame padding. -/
theorem frameData143_no_padding (l0 : List String) (rest : List (List String)) :
    ((∀ l ∈ rest, l0.length ≤ l.length) →
      ∃ jobs, frameData143 (l0 :: rest) = Except.ok jobs ∧
        jobs.length = l0.length ∧
        (∀ k job, jobs.get? k = some job →
          job.1 = k ∧ k < l0.length ∧
          job.2.length = (l0 :: rest).length ∧
          (∀ m layer, (l0 :: rest).get? m = some layer →
            job.2.get? m = layer.get? k))) ∧
    ((∃ l ∈ rest, l.length < l0.length) →
      frameData143 (l0 :: rest) = Except.error PyErr.indexError) := by
  have hstart : frameData143 (l0 :: rest) =
      exceptMapM
        (fun i => do
          let layerPaths ← exceptMapM (fun layer => pyGetL layer i) (l0 :: rest)
          pure (i, layerPaths))
        (List.range l0.length) := by
    unfold frameData143
    rw [pyGetL_cons_zero]
    rfl
  constructor
  · intro hlong
    have hlen : ∀ l ∈ l0 :: rest, l0.length ≤ l.length := by
      intro l hl
      rcases List.mem_cons.mp hl with rfl | hl2
      · exact Nat.le_refl _
      · exact hlong l hl2
    have houter : frameData143 (l0 :: rest) =
        Except.ok ((List.range l0.length).map
          (fun i => (i, (l0 :: rest).map (fun layer => layer.getD i "")))) := by
      rw [hstart]
      refine exceptMapM_ok _ _ _ ?_
      intro i hi
      have hi2 : i < l0.length := List.mem_range.mp hi
      have hinner : exceptMapM (fun layer => pyGetL layer i) (l0 :: rest) =
          Except.ok ((l0 :: rest).map (fun layer => layer.getD i "")) :=
        exceptMapM_ok _ _ _
          (fun l hl => pyGetL_ok l i (Nat.lt_of_lt_of_le hi2 (hlen l hl)))
      rw [hinner]
      rfl
    refine ⟨_, houter, by simp, ?_⟩
    intro k job hjob
    have hk : k < l0.length := by
      rcases List.get?_eq_some.mp hjob with ⟨hklen, _⟩
      simpa using hklen
    have hg : ((List.range l0.length).map
        (fun i => (i, (l0 :: rest).map (fun layer => layer.getD i "")))).get? k =
        some (k, (l0 :: rest).map (fun layer => layer.getD k "")) := by
      rw [List.get?_map, List.get?_range hk]
      rfl
    have hjeq : job = (k, (l0 :: rest).map (fun layer => layer.getD k "")) :=
      Option.some.inj (hjob ▸ hg)
    subst hjeq
    refine ⟨rfl, hk, by simp, ?_⟩
    intro m layer hm
    have hmem : layer ∈ l0 :: rest := List.get?_mem hm
    have hklt : k < layer.length := Nat.lt_of_lt_of_le hk (hlen layer hmem)
    rw [List.get?_map, hm, get?_eq_some_getD layer k hklt]
    rfl
  · intro hshort
    rcases hshort with ⟨l, hl, hlt⟩
    rw [hstart]
    refine exceptMapM_error _
      (fun i => (i, (l0 :: rest).map (fun layer => layer.getD i "")))
      .indexError _ ?_ ?_
    · intro i hi
      have hcaseInner : ∀ layer ∈ l0 :: rest,
          pyGetL layer i = .ok (layer.getD i "") ∨
          pyGetL layer i = .error .indexError := by
        intro layer hmem
        by_cases hil : i < layer.length
        · exact Or.inl (pyGetL_ok layer i hil)
        · exact Or.inr (pyGetL_err layer i hil)
      rcases exceptMapM_cases (fun layer => pyGetL layer i)
        (fun layer => layer.getD i "") .indexError (l0 :: rest) hcaseInner with hin | hin
      · left
        rw [hin]
        rfl
      · right
        rw [hin]
        rfl
    · refine ⟨l.length, List.mem_range.mpr hlt, ?_⟩
      have hin : exceptMapM (fun layer => pyGetL layer l.length) (l0 :: rest) =
          Except.error .indexError := by
        refine exceptMapM_error _ (fun layer => layer.getD l.length "") .indexError _ ?_ ?_
        · intro layer hmem
          by_cases hil : l.length < layer.length
          · exact Or.inl (pyGetL_ok layer l.length hil)
          · exact Or.inr (pyGetL_err layer l.length hil)
        · exact ⟨l, List.mem_cons_of_mem l0 hl,
            pyGetL_err l l.length (Nat.lt_irrefl l.length)⟩
      rw [hin]
      rfl

/-- Witness for C9: a longer second layer is consumed only below layer
0's length, and a shorter second layer raises `IndexError`. -/
theorem frameData143_no_padding_witness :
    (∀ l ∈ ([["c", "d", "e"]] : List (List String)),
      (["a", "b"] : List String).length ≤ l.length) ∧
    (∃ jobs, frameData143 [["a", "b"], ["c", "d", "e"]] = Except.ok jobs ∧
      jobs.length = (["a", "b"] : List String).length ∧
      (∀ k job, jobs.get? k = some job →
        job.1 = k ∧ k < (["a", "b"] : List String).length ∧
        job.2.length = ([["a", "b"], ["c", "d", "e"]] : List (List String)).length ∧
        (∀ m layer, ([["a", "b"], ["c", "d", "e"]] : List (List String)).get? m = some layer →
          job.2.get? m = layer.get? k))) ∧
    (∃ l ∈ ([["c"]] : List (List String)), l.length < (["a", "b"] : List String).length) ∧
    frameData143 [["a", "b"], ["c"]] = Except.error PyErr.indexError :=
  ⟨by decide,
    (frameData143_no_padding ["a", "b"] [["c", "d", "e"]]).1 (by decide),
    by decide,
    (frameData143_no_padding ["a", "b"] [["c"]]).2 (by decide)⟩

/-- Values passed to the progress callback by mar141's `merge_layers`
(lines 79-81): `(i + 1) / total_frames * 100` for `i` in
`range(total_frames)`, as exact rationals. -/
def progressSeq141 (total : Nat) : List ℚ :=
  (List.range total).map (fun (i : Nat) => ((i : ℚ) + 1) / (total : ℚ) * 100)

/-- Values passed to the progress callback by mar143's `merge_layers`
(lines 83-85): `(i + 1) * 100 / num_frames`, where `i` enumerates the
completions of `imap_unordered` — the value depends only on how many
frames have completed, not on which. -/
def progressSeq143 (total : Nat) : List ℚ :=
  (List.range total).map (fun (i : Nat) => ((i : ℚ) + 1) * 100 / (total : ℚ))

/-- The final progress value is exactly 100. -/
theorem progressFinal (t : Nat) :
    ((t : ℚ) + 1) * 100 / ((t + 1 : ℕ) : ℚ) = 100 := by
  have hne : ((t : ℚ) + 1) ≠ 0 := by positivity
  push_cast
  rw [mul_comm, mul_div_cancel_right₀ _ hne]

/-- C5: on a successful run (at least one frame, since a zero-frame
run never reaches the encoder successfully), both implementations pass
the same value sequence to the progress callback; it is non-decreasing,
every value lies in `[0, 100]`, the final value is 100, and 100 occurs
exactly once. -/
theorem progress_monotone_reaches_100 (total : Nat) (ht : 0 < total) :
    progressSeq141 total = progressSeq143 total ∧
    List.Chain' (· ≤ ·) (progressSeq143 total) ∧
    (∀ x ∈ progressSeq143 total, 0 ≤ x ∧ x ≤ 100) ∧
    (progressSeq143 total).getLast? = some 100 ∧
    (progressSeq143 total).count 100 = 1 := by
  have hT : (0 : ℚ) < (total : ℚ) := by exact_mod_cast ht
  refine ⟨?_, ?_, ?_, ?_, ?_⟩
  · unfold progressSeq141 progressSeq143
    refine List.map_congr_left ?_
    intro i _
    rw [div_mul_eq_mul_div]
  · unfold progressSeq143
    rw [List.chain'_map]
    obtain ⟨t, rfl⟩ := Nat.exists_eq_succ_of_ne_zero (Nat.pos_iff_ne_zero.mp ht)
    rw [List.chain'_range_succ]
    intro m _
    gcongr
    linarith
  · intro x hx
    unfold progressSeq143 at hx
    obtain ⟨i, hi, rfl⟩ := List.mem_map.mp hx
    have hi2 : (i : ℚ) + 1 ≤ (total : ℚ) := by
      exact_mod_cast Nat.succ_le_of_lt (List.mem_range.mp hi)
    constructor
    · positivity
    · rw [div_le_iff hT]
      nlinarith
  · unfold progressSeq143
    obtain ⟨t, rfl⟩ := Nat.exists_eq_succ_of_ne_zero (Nat.pos_iff_ne_zero.mp ht)
    rw [List.range_succ, List.map_append]
    simp only [List.map_cons, List.map_nil]
    rw [List.getLast?_concat, progressFinal]
  · unfold progressSeq143
    obtain ⟨t, rfl⟩ := Nat.exists_eq_succ_of_ne_zero (Nat.pos_iff_ne_zero.mp ht)
    rw [List.range_succ, List.map_append]
    simp only [List.map_cons, List.map_nil]
    rw [progressFinal, List.count_append]
    have hnotmem : (100 : ℚ) ∉
        (List.range t).map (fun (i : Nat) => ((i : ℚ) + 1) * 100 / ((t + 1 : ℕ) : ℚ)) := by
      intro hmem
      obtain ⟨i, hi, hfi⟩ := List.mem_map.mp hmem
      have hi2 : (i : ℚ) + 1 < (t : ℚ) + 1 := by
        have hi3 := List.mem_range.mp hi
        have hi4 : i + 1 < t + 1 := Nat.succ_lt_succ hi3
        exact_mod_cast hi4
      have hTpos : (0 : ℚ) < ((t + 1 : ℕ) : ℚ) := by
        exact_mod_cast Nat.succ_pos t
      rw [div_eq_iff (ne_of_gt hTpos)] at hfi
      push_cast at hfi
      nlinarith
    rw [List.count_eq_zero.mpr hnotmem]
    simp

/-- Witness for C5 at three frames. -/
theorem progress_monotone_reaches_100_witness :
    0 < 3 ∧
    (progressSeq141 3 = progressSeq143 3 ∧
      List.Chain' (· ≤ ·) (progressSeq143 3) ∧
      (∀ x ∈ progressSeq143 3, 0 ≤ x ∧ x ≤ 100) ∧
      (progressSeq143 3).getLast? = some 100 ∧
      (progressSeq143 3).count 100 = 1) :=
  ⟨by decide, progress_monotone_reaches_100 3 (by decide)⟩

section Compositing

variable {Img : Type} (decode : String → Img) (blurFn fogFn : Img → Nat → Img)
  (alphaComp : Img → Img → Img)

/-- Per-layer effect gating of mar143's `process_frame` (lines 43-46)
and `generate_merged_images` (lines 357-372): blur when the layer
index is selected and `blur_amount > 0`, then fog when selected and
`fog_amount > 0`.  The decode/blur/fog/composite operations themselves
(PIL calls) are parameters. -/
def applyEffects143 (blurLayers fogLayers : List Nat) (blurAmount fogAmount : Nat)
    (idx : Nat) (img : Img) : Img :=
  let b := if idx ∈ blurLayers ∧ 0 < blurAmount then blurFn img blurAmount else img
  if idx ∈ fogLayers ∧ 0 < fogAmount then fogFn b fogAmount else b

/-- Per-layer effect gating of mar141's `merge_layers` (lines 63-69):
same as mar143's but with Python's extra truthiness test
`blur_layers and ...` on the selection list itself. -/
def applyEffects141 (blurLayers fogLayers : List Nat) (blurAmount fogAmount : Nat)
    (idx : Nat) (img : Img) : Img :=
  let b :=
    if blurLayers ≠ [] ∧ idx ∈ blurLayers ∧ 0 < blurAmount then blurFn img blurAmount else img
  if fogLayers ≠ [] ∧ idx ∈ fogLayers ∧ 0 < fogAmount then fogFn b fogAmount else b

/-- The loop `for layer_index, layer in enumerate(layers[1:], start=1)`
shared by mar141's `merge_layers` and both `generate_merged_images`:
decode the layer's frame at this index, apply the per-layer effect
function, and alpha-composite it over the accumulator. -/
def stackFrom (eff : Nat → Img → Img) : Img → Nat → List String → Img
  | merged, _, [] => merged
  | merged, idx, q :: qs =>
    stackFrom eff (alphaComp merged (eff idx (decode q))) (idx + 1) qs

/-- Embedding of one frame of mar141's `merge_layers` (lines 55-71):
the accumulation base is `Image.open(layers[0][i]).convert("RGBA")`
with no effects, then layers 1.. are stacked on top.  `framePaths` is
the per-layer path list at one frame index (empty only if `layers`
itself were empty, in which case line 57 would raise). -/
def mergeFrame141 (blurLayers fogLayers : List Nat) (blurAmount fogAmount : Nat)
    (framePaths : List String) : Option Img :=
  match framePaths with
  | [] => none
  | p :: rest =>
    some (stackFrom decode alphaComp
      (applyEffects141 blurFn fogFn blurLayers fogLayers blurAmount fogAmount)
      (decode p) 1 rest)

/-- The loop of mar143's `process_frame` (lines 37-51): `merged`
starts as `None`; every layer, index 0 included, gets the effect
gating; the first layer becomes the accumulator, later ones are
composited over it. -/
def processFrameGo (eff : Nat → Img → Img) : Option Img → Nat → List String → Option Img
  | merged, _, [] => merged
  | none, idx, q :: qs =>
    processFrameGo eff (some (eff idx (decode q))) (idx + 1) qs
  | some m, idx, q :: qs =>
    processFrameGo eff (some (alphaComp m (eff idx (decode q)))) (idx + 1) qs

/-- Embedding of mar143's `process_frame` (lines 34-51), restricted to
the compositing result (the write of the finished frame to the store
is modelled separately). -/
def processFrame143 (blurLayers fogLayers : List Nat) (blurAmount fogAmount : Nat)
    (layerPaths : List String) : Option Img :=
  processFrameGo decode alphaComp
    (applyEffects143 blurFn fogFn blurLayers fogLayers blurAmount fogAmount) none 0 layerPaths

/-- Embedding of one frame of mar143's `generate_merged_images`
(lines 352-374): the base layer is decoded and gets the effect gating
for index 0 before becoming the accumulator; layers 1.. follow. -/
def genFrame143 (blurLayers fogLayers : List Nat) (blurAmount fogAmount : Nat)
    (framePaths : List String) : Option Img :=
  match framePaths with
  | [] => none
  | p :: rest =>
    let f0 := decode p
    let f1 := if 0 ∈ blurLayers ∧ 0 < blurAmount then blurFn f0 blurAmount else f0
    let f2 := if 0 ∈ fogLayers ∧ 0 < fogAmount then fogFn f1 fogAmount else f1
    some (stackFrom decode alphaComp
      (applyEffects143 blurFn fogFn blurLayers fogLayers blurAmount fogAmount) f2 1 rest)

/-- Stacking with pointwise-equal effect functions gives equal frames. -/
theorem stackFrom_congr (eff eff2 : Nat → Img → Img)
    (h : ∀ i x, eff i x = eff2 i x) :
    ∀ (qs : List String) (m : Img) (idx : Nat),
      stackFrom decode alphaComp eff m idx qs =
        stackFrom decode alphaComp eff2 m idx qs := by
  intro qs
  induction qs with
  | nil => intro m idx; rfl
  | cons q qs ih =>
    intro m idx
    simp only [stackFrom]
    rw [h]
    exact ih _ _

/-- Once the accumulator exists, `process_frame`'s loop is the shared
stacking loop. -/
theorem processFrameGo_some (eff : Nat → Img → Img) :
    ∀ (qs : List String) (m : Img) (idx : Nat),
      processFrameGo decode alphaComp eff (some m) idx qs =
        some (stackFrom decode alphaComp eff m idx qs) := by
  intro qs
  induction qs with
  | nil => intro m idx; rfl
  | cons q qs ih =>
    intro m idx
    simp only [processFrameGo, stackFrom]
    exact ih _ _

/-- The `process_frame` loop with pointwise-equal effect functions
gives equal results. -/
theorem processFrameGo_congr (eff eff2 : Nat → Img → Img)
    (h : ∀ i x, eff i x = eff2 i x) :
    ∀ (qs : List String) (m : Option Img) (idx : Nat),
      processFrameGo decode alphaComp eff m idx qs =
        processFrameGo decode alphaComp eff2 m idx qs := by
  intro qs
  induction qs with
  | nil => intro m idx; cases m <;> rfl
  | cons q qs ih =>
    intro m idx
    cases m with
    | none =>
      simp only [processFrameGo]
      rw [h]
      exact ih _ _
    | some m =>
      simp only [processFrameGo]
      rw [h]
      exact ih _ _

/-- Unfolding of `process_frame` on a non-empty path list: the base
is the first layer's decoded image with the index-0 effect gating. -/
theorem processFrame143_cons (blurLayers fogLayers : List Nat)
    (blurAmount fogAmount : Nat) (p : String) (rest : List String) :
    processFrame143 decode blurFn fogFn alphaComp blurLayers fogLayers blurAmount fogAmount
        (p :: rest) =
      some (stackFrom decode alphaComp
        (applyEffects143 blurFn fogFn blurLayers fogLayers blurAmount fogAmount)
        (applyEffects143 blurFn fogFn blurLayers fogLayers blurAmount fogAmount 0 (decode p))
        1 rest) := by
  unfold processFrame143
  rw [show processFrameGo decode alphaComp
      (applyEffects143 blurFn fogFn blurLayers fogLayers blurAmount fogAmount) none 0
      (p :: rest) =
    processFrameGo decode alphaComp
      (applyEffects143 blurFn fogFn blurLayers fogLayers blurAmount fogAmount)
      (some (applyEffects143 blurFn fogFn blurLayers fogLayers blurAmount fogAmount 0
        (decode p))) 1 rest from rfl]
  exact processFrameGo_some decode alphaComp _ rest _ 1

/-- Unfolding of `generate_merged_images` on a non-empty path list:
its inline base-effect code is exactly the index-0 effect gating. -/
theorem genFrame143_cons (blurLayers fogLayers : List Nat)
    (blurAmount fogAmount : Nat) (p : String) (rest : List String) :
    genFrame143 decode blurFn fogFn alphaComp blurLayers fogLayers blurAmount fogAmount
        (p :: rest) =
      some (stackFrom decode alphaComp
        (applyEffects143 blurFn fogFn blurLayers fogLayers blurAmount fogAmount)
        (applyEffects143 blurFn fogFn blurLayers fogLayers blurAmount fogAmount 0 (decode p))
        1 rest) := rfl

end Compositing

/-- C6: a zero `blur_amount` yields output identical to an empty
`blur_layers` selection, and a zero `fog_amount` yields output
identical to an empty `fog_layers` selection, in all three compositing
paths (mar141 `merge_layers`, mar143 `process_frame`, mar143
`generate_merged_images`), for every choice of image operations. -/
theorem effect_gating_zero_amount {Img : Type} (decode : String → Img)
    (blurFn fogFn : Img → Nat → Img) (alphaComp : Img → Img → Img)
    (blurL fogL : List Nat) (blurA fogA : Nat) (paths : List String) :
    (processFrame143 decode blurFn fogFn alphaComp blurL fogL 0 fogA paths =
      processFrame143 decode blurFn fogFn alphaComp [] fogL 0 fogA paths) ∧
    (processFrame143 decode blurFn fogFn alphaComp blurL fogL blurA 0 paths =
      processFrame143 decode blurFn fogFn alphaComp blurL [] blurA 0 paths) ∧
    (mergeFrame141 decode blurFn fogFn alphaComp blurL fogL 0 fogA paths =
      mergeFrame141 decode blurFn fogFn alphaComp [] fogL 0 fogA paths) ∧
    (mergeFrame141 decode blurFn fogFn alphaComp blurL fogL blurA 0 paths =
      mergeFrame141 decode blurFn fogFn alphaComp blurL [] blurA 0 paths) ∧
    (genFrame143 decode blurFn fogFn alphaComp blurL fogL 0 fogA paths =
      genFrame143 decode blurFn fogFn alphaComp [] fogL 0 fogA paths) ∧
    (genFrame143 decode blurFn fogFn alphaComp blurL fogL blurA 0 paths =
      genFrame143 decode blurFn fogFn alphaComp blurL [] blurA 0 paths) := by
  have hb143 : ∀ i x,
      applyEffects143 blurFn fogFn blurL fogL 0 fogA i x =
        applyEffects143 blurFn fogFn [] fogL 0 fogA i x := by
    intro i x
    unfold applyEffects143
    simp
  have hf143 : ∀ i x,
      applyEffects143 blurFn fogFn blurL fogL blurA 0 i x =
        applyEffects143 blurFn fogFn blurL [] blurA 0 i x := by
    intro i x
    unfold applyEffects143
    simp
  have hb141 : ∀ i x,
      applyEffects141 blurFn fogFn blurL fogL 0 fogA i x =
        applyEffects141 blurFn fogFn [] fogL 0 fogA i x := by
    intro i x
    unfold applyEffects141
    simp
  have hf141 : ∀ i x,
      applyEffects141 blurFn fogFn blurL fogL blurA 0 i x =
        applyEffects141 blurFn fogFn blurL [] blurA 0 i x := by
    intro i x
    unfold applyEffects141
    simp
  refine ⟨?_, ?_, ?_, ?_, ?_, ?_⟩
  · unfold processFrame143
    exact processFrameGo_congr decode alphaComp _ _ hb143 paths none 0
  · unfold processFrame143
    exact processFrameGo_congr decode alphaComp _ _ hf143 paths none 0
  · cases paths with
    | nil => rfl
    | cons p rest =>
      unfold mergeFrame141
      exact congrArg some (stackFrom_congr decode alphaComp _ _ hb141 rest (decode p) 1)
  · cases paths with
    | nil => rfl
    | cons p rest =>
      unfold mergeFrame141
      exact congrArg some (stackFrom_congr decode alphaComp _ _ hf141 rest (decode p) 1)
  · cases paths with
    | nil => rfl
    | cons p rest =>
      rw [genFrame143_cons, genFrame143_cons]
      rw [hb143 0 (decode p)]
      exact congrArg some (stackFrom_congr decode alphaComp _ _ hb143 rest _ 1)
  · cases paths with
    | nil => rfl
    | cons p rest =>
      rw [genFrame143_cons, genFrame143_cons]
      rw [hf143 0 (decode p)]
      exact congrArg some (stackFrom_congr decode alphaComp _ _ hf143 rest _ 1)

/-- Free term model of the image operations: a `PImg` records exactly
which decodes, effects and composites produced it, so questions such
as "was an effect applied to the base layer" are answered by looking
at the term. -/
inductive PImg where
  | decoded : String → PImg
  | blurred : PImg → Nat → PImg
  | fogged : PImg → Nat → PImg
  | comp : PImg → PImg → PImg
  deriving DecidableEq, Repr

/-- Bottom-most input of a composite: follows the left (background)
argument of every `comp` node, i.e. the accumulation base of a frame. -/
def basePimg : PImg → PImg
  | .comp a _ => basePimg a
  | t => t

/-- Whether the outermost operation of a term is a blur or a fog. -/
def topEffect : PImg → Bool
  | .blurred _ _ => true
  | .fogged _ _ => true
  | _ => false

/-- mar141's per-frame compositor in the free model. -/
def mergeFrame141P : List Nat → List Nat → Nat → Nat → List String → Option PImg :=
  mergeFrame141 PImg.decoded PImg.blurred PImg.fogged PImg.comp

/-- mar143's `process_frame` compositor in the free model. -/
def processFrame143P : List Nat → List Nat → Nat → Nat → List String → Option PImg :=
  processFrame143 PImg.decoded PImg.blurred PImg.fogged PImg.comp

/-- mar143's `generate_merged_images` per-frame compositor in the
free model. -/
def genFrame143P : List Nat → List Nat → Nat → Nat → List String → Option PImg :=
  genFrame143 PImg.decoded PImg.blurred PImg.fogged PImg.comp

/-- mar143's effect gating in the free model. -/
def applyEffects143P : List Nat → List Nat → Nat → Nat → Nat → PImg → PImg :=
  applyEffects143 PImg.blurred PImg.fogged

/-- Stacking layers on top never changes the base of the frame. -/
theorem basePimg_stackFrom (eff : Nat → PImg → PImg) :
    ∀ (qs : List String) (m : PImg) (idx : Nat),
      basePimg (stackFrom PImg.decoded PImg.comp eff m idx qs) = basePimg m := by
  intro qs
  induction qs with
  | nil => intro m idx; rfl
  | cons q qs ih =>
    intro m idx
    simp only [stackFrom]
    rw [ih]
    rfl

/-- The effect gating applied to a decoded image is not a composite,
so it is its own base. -/
theorem basePimg_applyEffects (blurL fogL : List Nat) (blurA fogA : Nat) (p : String) :
    basePimg (applyEffects143P blurL fogL blurA fogA 0 (PImg.decoded p)) =
      applyEffects143P blurL fogL blurA fogA 0 (PImg.decoded p) := by
  unfold applyEffects143P applyEffects143
  split <;> split <;> rfl

/-- When layer 0 is selected for an active effect, the gating leaves a
blur or fog as the outermost operation. -/
theorem topEffect_applyEffects (blurL fogL : List Nat) (blurA fogA : Nat) (x : PImg)
    (h : (0 ∈ blurL ∧ 0 < blurA) ∨ (0 ∈ fogL ∧ 0 < fogA)) :
    topEffect (applyEffects143P blurL fogL blurA fogA 0 x) = true := by
  unfold applyEffects143P applyEffects143
  by_cases hf : 0 ∈ fogL ∧ 0 < fogA
  · rw [if_pos hf]
    rfl
  · rw [if_neg hf]
    rcases h with hb | hf2
    · rw [if_pos hb]
      rfl
    · exact absurd hf2 hf

/-- C2 (counterexample): in mar141's `merge_layers` compositing path,
with layer 0 selected in `fog_layers` and `fog_amount = 5 > 0`, the
accumulation base of the output frame is the raw decoded image of
layer 0 — no effect is applied to it before compositing. -/
theorem base_layer_effects_counterexample :
    mergeFrame141P [] [0] 0 5 ["a", "b"] =
      some (PImg.comp (PImg.decoded "a") (PImg.decoded "b")) ∧
    basePimg (PImg.comp (PImg.decoded "a") (PImg.decoded "b")) = PImg.decoded "a" ∧
    topEffect (PImg.decoded "a") = false ∧
    (0 ∈ ([0] : List Nat) ∧ 0 < 5) :=
  ⟨rfl, rfl, rfl, by decide⟩

/-- C2 (amended): when layer 0 is selected for an active effect,
mar143's `process_frame` and `generate_merged_images` apply that
effect to layer 0's decoded image before it becomes the accumulation
base, but mar141's `merge_layers` never does — its base is always the
raw decoded image of layer 0. -/
theorem base_layer_effects_divergence (p : String) (rest : List String)
    (blurL fogL : List Nat) (blurA fogA : Nat)
    (h : (0 ∈ blurL ∧ 0 < blurA) ∨ (0 ∈ fogL ∧ 0 < fogA)) :
    (processFrame143P blurL fogL blurA fogA (p :: rest)).map basePimg =
      some (applyEffects143P blurL fogL blurA fogA 0 (PImg.decoded p)) ∧
    (genFrame143P blurL fogL blurA fogA (p :: rest)).map basePimg =
      some (applyEffects143P blurL fogL blurA fogA 0 (PImg.decoded p)) ∧
    topEffect (applyEffects143P blurL fogL blurA fogA 0 (PImg.decoded p)) = true ∧
    (mergeFrame141P blurL fogL blurA fogA (p :: rest)).map basePimg =
      some (PImg.decoded p) ∧
    topEffect (PImg.decoded p) = false := by
  refine ⟨?_, ?_, topEffect_applyEffects blurL fogL blurA fogA (PImg.decoded p) h, ?_, rfl⟩
  · unfold processFrame143P
    rw [processFrame143_cons]
    rw [Option.map_some']
    rw [basePimg_stackFrom]
    rw [show applyEffects143 PImg.blurred PImg.fogged blurL fogL blurA fogA 0 (PImg.decoded p) =
      applyEffects143P blurL fogL blurA fogA 0 (PImg.decoded p) from rfl]
    rw [basePimg_applyEffects]
  · unfold genFrame143P
    rw [genFrame143_cons]
    rw [Option.map_some']
    rw [basePimg_stackFrom]
    rw [show applyEffects143 PImg.blurred PImg.fogged blurL fogL blurA fogA 0 (PImg.decoded p) =
      applyEffects143P blurL fogL blurA fogA 0 (PImg.decoded p) from rfl]
    rw [basePimg_applyEffects]
  · unfold mergeFrame141P
    rw [show mergeFrame141 PImg.decoded PImg.blurred PImg.fogged PImg.comp
        blurL fogL blurA fogA (p :: rest) =
      some (stackFrom PImg.decoded PImg.comp
        (applyEffects141 PImg.blurred PImg.fogged blurL fogL blurA fogA)
        (PImg.decoded p) 1 rest) from rfl]
    rw [Option.map_some']
    rw [basePimg_stackFrom]
    rfl

/-- Witness for the amended C2 with fog selected on layer 0. -/
theorem base_layer_effects_divergence_witness :
    ((0 ∈ ([] : List Nat) ∧ 0 < 0) ∨ (0 ∈ ([0] : List Nat) ∧ 0 < 5)) ∧
    ((processFrame143P [] [0] 0 5 ["a", "b"]).map basePimg =
        some (applyEffects143P [] [0] 0 5 0 (PImg.decoded "a")) ∧
      (genFrame143P [] [0] 0 5 ["a", "b"]).map basePimg =
        some (applyEffects143P [] [0] 0 5 0 (PImg.decoded "a")) ∧
      topEffect (applyEffects143P [] [0] 0 5 0 (PImg.decoded "a")) = true ∧
      (mergeFrame141P [] [0] 0 5 ["a", "b"]).map basePimg = some (PImg.decoded "a") ∧
      topEffect (PImg.decoded "a") = false) :=
  ⟨Or.inr (by decide),
    base_layer_effects_divergence "a" ["b"] [] [0] 0 5 (Or.inr (by decide))⟩

section FrameStore

variable {Frame : Type}

/-- The frame store written by the workers: `process_frame` saves each
composited frame under `temp_frames/frame_{i:05d}.png` (mar143.py line
53), a name determined by the frame index alone.  Modelled as an
association list of (frame-index key, frame) pairs, most recent write
first; `order` is the sequence in which workers happen to complete. -/
def writeFrames (render : Nat → Frame) (order : List Nat) : List (Nat × Frame) :=
  order.foldl (fun store i => (i, render i) :: store) []

/-- Reading one file of the store by its frame-index key. -/
def lookupFrame : List (Nat × Frame) → Nat → Option Frame
  | [], _ => none
  | (k, v) :: store, i => if k = i then some v else lookupFrame store i

/-- The encoder's consumption: FFmpeg is invoked on the input pattern
`temp_frames/frame_%05d.png` (mar143.py lines 88-99), so it reads the
keys `0, 1, ..., n-1` in ascending order. -/
def encoderReads (n : Nat) (store : List (Nat × Frame)) : List (Option Frame) :=
  (List.range n).map (lookupFrame store)

/-- The sequence of frame indices the encoder consumes. -/
def encoderIndexOrder (n : Nat) : List Nat := List.range n

/-- The fold that builds the store prepends one keyed entry per
completion. -/
theorem writeFrames_foldl (render : Nat → Frame) :
    ∀ (order : List Nat) (init : List (Nat × Frame)),
      order.foldl (fun store i => (i, render i) :: store) init =
        (order.map (fun i => (i, render i))).reverse ++ init := by
  intro order
  induction order with
  | nil => intro init; rfl
  | cons x xs ih =>
    intro init
    rw [List.foldl_cons, ih, List.map_cons, List.reverse_cons, List.append_assoc]
    rfl

/-- In a store where every entry holds the frame rendered for its own
key, looking up a present key returns that key's frame. -/
theorem lookupFrame_keyed (render : Nat → Frame) :
    ∀ l : List (Nat × Frame), (∀ e ∈ l, e.2 = render e.1) →
      ∀ i, (∃ e ∈ l, e.1 = i) → lookupFrame l i = some (render i) := by
  intro l
  induction l with
  | nil =>
    intro _ i hex
    rcases hex with ⟨e, he, _⟩
    cases he
  | cons e l ih =>
    intro hall i hex
    obtain ⟨k, v⟩ := e
    by_cases hk : k = i
    · subst hk
      have hv : v = render k := hall (k, v) (List.mem_cons_self _ _)
      simp [lookupFrame, hv]
    · simp only [lookupFrame, if_neg hk]
      apply ih (fun e2 he2 => hall e2 (List.mem_cons_of_mem _ he2))
      rcases hex with ⟨e2, he2, hke⟩
      rcases List.mem_cons.mp he2 with rfl | he3
      · exact absurd hke hk
      · exact ⟨e2, he3, hke⟩

/-- Every store entry holds the frame of its own key, and every
completed index has an entry. -/
theorem writeFrames_entries (render : Nat → Frame) (order : List Nat) :
    (∀ e ∈ writeFrames render order, e.2 = render e.1) ∧
    (∀ i, i ∈ order → ∃ e ∈ writeFrames render order, e.1 = i) := by
  unfold writeFrames
  rw [writeFrames_foldl]
  constructor
  · intro e he
    rw [List.append_nil, List.mem_reverse] at he
    obtain ⟨i, _, rfl⟩ := List.mem_map.mp he
    rfl
  · intro i hi
    refine ⟨(i, render i), ?_, rfl⟩
    rw [List.append_nil, List.mem_reverse]
    exact List.mem_map_of_mem _ hi

end FrameStore

/-- C3: whatever order the workers complete in (any permutation of the
frame indices), each composited frame sits in the store under its own
frame-index key, and the encoder consumes the keys `0, ..., n-1` in
strictly ascending order, receiving for every index exactly the frame
composited for that index — never out of order. -/
theorem encoder_consumes_frames_in_order {Frame : Type} (render : Nat → Frame)
    (n : Nat) (order : List Nat) (hperm : order.Perm (List.range n)) :
    List.Chain' (· < ·) (encoderIndexOrder n) ∧
    encoderReads n (writeFrames render order) =
      (List.range n).map (fun i => some (render i)) := by
  constructor
  · exact (List.pairwise_lt_range n).chain'
  · unfold encoderReads
    refine List.map_congr_left ?_
    intro i hi
    apply lookupFrame_keyed render _ (writeFrames_entries render order).1 i
    exact (writeFrames_entries render order).2 i (hperm.mem_iff.mpr hi)

/-- Witness for C3: three frames completing in the order 2, 0, 1 are
still consumed as 0, 1, 2. -/
theorem encoder_consumes_frames_in_order_witness :
    ([2, 0, 1] : List Nat).Perm (List.range 3) ∧
    (List.Chain' (· < ·) (encoderIndexOrder 3) ∧
      encoderReads 3 (writeFrames (fun i => i * 10) [2, 0, 1]) =
        (List.range 3).map (fun i => some (i * 10))) :=
  ⟨by decide, encoder_consumes_frames_in_order (fun i => i * 10) 3 [2, 0, 1] (by decide)⟩

/-- Filesystem state relevant to mar143's `merge_layers`: whether the
`temp_frames` staging directory exists, and the frame files in it. -/
structure TempFS where
  tempDirPresent : Bool
  frames : List Nat

/-- `os.makedirs(temp_dir, exist_ok=True)` (mar143.py lines 58-59):
ensures the directory exists, keeping any existing contents. -/
def makedirsTemp (fs : TempFS) : TempFS :=
  { tempDirPresent := true, frames := fs.frames }

/-- `shutil.rmtree(temp_dir, ignore_errors=True)` (mar143.py lines
104-106): removes the directory and everything in it. -/
def rmtreeTemp (_ : TempFS) : TempFS :=
  { tempDirPresent := false, frames := [] }

/-- Control-flow skeleton of mar143's `merge_layers` (lines 57-106):
create the staging directory, run the `try` body (frame processing and
the FFmpeg step, an arbitrary state transformer that may succeed or
raise), re-raise any exception unchanged (`except ... raise e`), and
run the `finally` cleanup on every exit path before the call returns.
The result pairs the final filesystem with the propagated outcome. -/
def mergeLayers143Lifecycle {α : Type}
    (body : TempFS → TempFS × Except PyErr α) (fs0 : TempFS) :
    TempFS × Except PyErr α :=
  let fs1 := makedirsTemp fs0
  let br := body fs1
  (rmtreeTemp br.1, br.2)

/-- C7: on every execution of mar143's `merge_layers` — whatever the
body does, succeed or raise — the staging directory exists in the
state the frame-processing body starts from, the directory and its
frames are gone in the state the call ends in, and the body's outcome
(success or exception) propagates to the caller unchanged. -/
theorem temp_dir_never_survives {α : Type}
    (body : TempFS → TempFS × Except PyErr α) (fs0 : TempFS) :
    (makedirsTemp fs0).tempDirPresent = true ∧
    (mergeLayers143Lifecycle body fs0).1.tempDirPresent = false ∧
    (mergeLayers143Lifecycle body fs0).1.frames = [] ∧
    (mergeLayers143Lifecycle body fs0).2 = (body (makedirsTemp fs0)).2 :=
  ⟨rfl, rfl, rfl, rfl⟩

/-- An RGBA pixel with 8-bit channels. -/
structure RGBA where
  r : Nat
  g : Nat
  b : Nat
  a : Nat

/-- Model of a decoded PIL image: a fixed width and height plus a
pixel function. -/
structure PILImage where
  width : Nat
  height : Nat
  pix : Nat → Nat → RGBA

/-- Clamp an integer coordinate into `[0, limit - 1]`. -/
def clampCoord (limit : Nat) (v : Int) : Nat :=
  (min (max v 0) ((limit : Int) - 1)).toNat

/-- Sample a pixel with edge clamping, as convolution filters do at
image borders. -/
def samplePix (img : PILImage) (x y : Int) : RGBA :=
  img.pix (clampCoord img.width x) (clampCoord img.height y)

/-- Model of PIL's `ImageFilter.GaussianBlur(radius)` as used through
`image.filter(...)`: each output pixel is a normalized average of the
input pixels in the `(2*radius+1)`-square window around it.  The exact
Gaussian weights are a library internal; the property the code relies
on is that the filter is a pixel-grid convolution producing an image
of the same size, which PIL guarantees. -/
def gaussianBlurFilter (img : PILImage) (radius : Nat) : PILImage :=
  { width := img.width
    height := img.height
    pix := fun x y =>
      let offs := (List.range (2 * radius + 1)).map (fun (d : Nat) => (d : Int) - (radius : Int))
      let pts := offs.bind (fun dy =>
        offs.map (fun dx => samplePix img ((x : Int) + dx) ((y : Int) + dy)))
      let n := pts.length
      let s := pts.foldl
        (fun acc q => RGBA.mk (acc.r + q.r) (acc.g + q.g) (acc.b + q.b) (acc.a + q.a))
        (RGBA.mk 0 0 0 0)
      RGBA.mk (s.r / n) (s.g / n) (s.b / n) (s.a / n) }

/-- Alpha-over blend of one foreground pixel over a background pixel
(straight alpha, integer arithmetic). -/
def overPixel (bg fg : RGBA) : RGBA :=
  let outA := fg.a + bg.a * (255 - fg.a) / 255
  if outA = 0 then RGBA.mk 0 0 0 0
  else
    RGBA.mk
      ((fg.r * fg.a + bg.r * bg.a * (255 - fg.a) / 255) / outA)
      ((fg.g * fg.a + bg.g * bg.a * (255 - fg.a) / 255) / outA)
      ((fg.b * fg.a + bg.b * bg.a * (255 - fg.a) / 255) / outA)
      outA

/-- Model of `Image.alpha_composite(bottom, top)`: PIL requires both
images to have the same size (raising `ValueError` otherwise) and
blends them pixel-wise with the alpha-over operator, returning an
image of that shared size. -/
def alphaCompositePIL (bg fg : PILImage) : Except PyErr PILImage :=
  if bg.width = fg.width ∧ bg.height = fg.height then
    .ok { width := bg.width, height := bg.height,
          pix := fun x y => overPixel (bg.pix x y) (fg.pix x y) }
  else
    .error .valueError

/-- Model of `Image.new("RGBA", size, color)`: a constant image of the
given size. -/
def imageNewRGBA (w h : Nat) (c : RGBA) : PILImage :=
  { width := w, height := h, pix := fun _ _ => c }

/-- `convert("RGBA")` on an already-RGBA model image is the identity. -/
def convertRGBA (img : PILImage) : PILImage := img

/-- Embedding of `apply_blur` (mar141.py lines 8-15, mar143.py lines
15-22): `image.filter(ImageFilter.GaussianBlur(radius=blur_amount))`. -/
def apply_blur (image : PILImage) (blur_amount : Nat) : PILImage :=
  gaussianBlurFilter image blur_amount

/-- Embedding of `apply_fog` (mar141.py lines 17-25, mar143.py lines
24-32): `fog = Image.new("RGBA", image.size, (255, 255, 255,
fog_amount))` followed by
`Image.alpha_composite(image.convert("RGBA"), fog)`. -/
def apply_fog (image : PILImage) (fog_amount : Nat) : Except PyErr PILImage :=
  alphaCompositePIL (convertRGBA image)
    (imageNewRGBA image.width image.height (RGBA.mk 255 255 255 fog_amount))

/-- C10: `apply_blur` and `apply_fog` preserve image dimensions for
every input image, blur radius and fog opacity; in particular the
`alpha_composite` inside `apply_fog` cannot fail, because the fog
overlay is created at exactly the input image's size. -/
theorem effects_preserve_dimensions (image : PILImage) (amount : Nat) :
    (apply_blur image amount).width = image.width ∧
    (apply_blur image amount).height = image.height ∧
    ∃ out, apply_fog image amount = Except.ok out ∧
      out.width = image.width ∧ out.height = image.height := by
  refine ⟨rfl, rfl,
    ⟨{ width := image.width, height := image.height,
       pix := fun x y => overPixel (image.pix x y)
         ((imageNewRGBA image.width image.height (RGBA.mk 255 255 255 amount)).pix x y) },
      ?_, rfl, rfl⟩⟩
  unfold apply_fog alphaCompositePIL convertRGBA
  rw [if_pos ⟨rfl, rfl⟩]

end JuniorIS
